import Mathlib

/-!
Shallow embedding of the portfolio ledger, valuation, achievement and
leaderboard engine of the stock-market-app repository (the serverless
handler in `src/unnamed/part_000` and its variant
`src/netlify/functions/api.js`), together with proofs about the claims
of its specification.

Numbers: the JavaScript source uses IEEE doubles; the embedding uses ℚ
for cash, prices and share counts (exact arithmetic, matching the
spec's exact weighted-average formula) and ℤ for Unix timestamps.
Mongo documents become Lean structures; a thrown exception becomes an
`Except` error; the in-place mutation of the first array element found
by `Array.prototype.find` becomes `updateFirstMatch`.
-/

deriving instance DecidableEq for Except

namespace StockApp

/-- A stock position, as stored in a user document's `stocks` array
(`{ symbol, shares, purchasePrice, purchaseDate }`). -/
structure Holding where
  symbol : String
  shares : ℚ
  purchasePrice : ℚ
  purchaseDate : ℤ
deriving DecidableEq, Repr

/-- The ledger-relevant part of a user document: `cash`, `stocks`,
`achievements`. -/
structure Account where
  cash : ℚ
  stocks : List Holding
  achievements : List String
deriving DecidableEq, Repr

/-- The trade payload `{ type, symbol, quantity, price }` of the
`executeTrade` action. -/
structure Order where
  type : String
  symbol : String
  quantity : ℚ
  price : ℚ
deriving DecidableEq, Repr

/-- The three errors `executeTrade` can throw:
`'Not enough cash.'`, `'Not enough shares to sell.'`,
`'Invalid trade type.'`. -/
inductive TradeError where
  | InsufficientFunds
  | InsufficientShares
  | InvalidOrderType
deriving DecidableEq, Repr

/-- Apply `f` to the first element satisfying `p`, leaving the rest of
the list unchanged.  This is what the JavaScript pattern
`const x = arr.find(p); if (x) mutate(x);` does to the array. -/
def updateFirstMatch (p : α → Bool) (f : α → α) : List α → List α
  | [] => []
  | x :: xs => if p x then f x :: xs else x :: updateFirstMatch p f xs

/-- `if (!l.includes(b)) l.push(b)` on an achievements array. -/
def addIfMissing (l : List String) (b : String) : List String :=
  if b ∈ l then l else l ++ [b]

/-- The `type === 'buy'` branch of `executeTrade`
(`src/unnamed/part_000` lines 149-158 plus the shared line 169): check
`quantity * price > cash`, debit the cash, fold the fill into the
existing position's weighted average or push a fresh holding, and push
`FIRST_TRADE` if missing. -/
def buyTrade (user : Account) (o : Order) (now : ℤ) :
    Except TradeError Account :=
  if o.quantity * o.price > user.cash then
    .error .InsufficientFunds
  else
    .ok { cash := user.cash - o.quantity * o.price,
          stocks :=
            match user.stocks.find? (fun s => s.symbol == o.symbol) with
            | some _ =>
                updateFirstMatch (fun s => s.symbol == o.symbol)
                  (fun s =>
                    { s with
                      purchasePrice :=
                        (s.shares * s.purchasePrice + o.quantity * o.price) /
                          (s.shares + o.quantity),
                      shares := s.shares + o.quantity })
                  user.stocks
            | none =>
                user.stocks ++
                  [{ symbol := o.symbol, shares := o.quantity,
                     purchasePrice := o.price, purchaseDate := now }],
          achievements := addIfMissing user.achievements "FIRST_TRADE" }

/-- The `type === 'sell'` branch of `executeTrade`
(`src/unnamed/part_000` lines 159-165 plus the shared line 169): require
an existing position with enough shares, push `PROFIT_MAKER` on a
profitable sale, credit the cash, decrement the first matching holding
and drop the symbol when its share count hits zero, and push
`FIRST_TRADE` if missing. -/
def sellTrade (user : Account) (o : Order) : Except TradeError Account :=
  match user.stocks.find? (fun s => s.symbol == o.symbol) with
  | none => .error .InsufficientShares
  | some stock =>
    if stock.shares < o.quantity then
      .error .InsufficientShares
    else
      .ok { cash := user.cash + o.quantity * o.price,
            stocks :=
              let stocks1 :=
                updateFirstMatch (fun s => s.symbol == o.symbol)
                  (fun s => { s with shares := s.shares - o.quantity })
                  user.stocks
              if stock.shares - o.quantity = 0 then
                stocks1.filter (fun s => !(s.symbol == o.symbol))
              else stocks1,
            achievements :=
              addIfMissing
                (if o.price > stock.purchasePrice then
                   addIfMissing user.achievements "PROFIT_MAKER"
                 else user.achievements)
                "FIRST_TRADE" }

/-- `executeTrade` from `src/unnamed/part_000` lines 143-173, acting on
one already-fetched user document (`now` is
`Math.floor(Date.now() / 1000)`).  On success the returned account is
what the `$set: { cash, stocks, achievements }` update persists; a
thrown error leaves the stored document untouched. -/
def executeTrade (user : Account) (o : Order) (now : ℤ) :
    Except TradeError Account :=
  if o.type = "buy" then buyTrade user o now
  else if o.type = "sell" then sellTrade user o
  else .error .InvalidOrderType

/-- The account the database holds after one `executeTrade` request: the
updated document on success, the unchanged one when the handler throws. -/
def tradeStep (user : Account) (t : Order × ℤ) : Account :=
  match executeTrade user t.1 t.2 with
  | .ok updated => updated
  | .error _ => user

/-- The per-holding market value accumulation shared by
`getLeaderboards` (line 183) and `checkAndAwardAchievements`
(line 214): `stockValue += shares * (quotes[symbol] ? quotes[symbol].c
: purchasePrice)`.  A quote snapshot is a partial map from symbol to
last price (the `.c` field); a missing symbol falls back to the
holding's cost basis. -/
def stockValue (stocks : List Holding) (quotes : String → Option ℚ) : ℚ :=
  stocks.foldl
    (fun acc s => acc + s.shares * ((quotes s.symbol).getD s.purchasePrice)) 0

/-- `totalValue = user.cash + stockValue`, the valuation both
`getLeaderboards` and `checkAndAwardAchievements` compute. -/
def valuate (a : Account) (quotes : String → Option ℚ) : ℚ :=
  a.cash + stockValue a.stocks quotes

/-- `30 * 24 * 60 * 60` seconds, from line 208. -/
def thirtyDays : ℤ := 30 * 24 * 60 * 60

/-- `if (!l.includes(b) && cond) l.push(b)`: the conditional badge push
pattern of `checkAndAwardAchievements`. -/
def awardIf (l : List String) (b : String) (cond : Bool) : List String :=
  if b ∉ l ∧ cond = true then l ++ [b] else l

/-- `stocks.some(s => s.purchaseDate < thirtyDaysAgo)` (line 209). -/
def patientCond (user : Account) (now : ℤ) : Bool :=
  user.stocks.any (fun s => decide (s.purchaseDate < now - thirtyDays))

/-- `totalValue >= 125000` (line 216). -/
def marketMasterCond (user : Account) (quotes : String → Option ℚ) : Bool :=
  decide (valuate user quotes ≥ 125000)

/-- `stocks.length >= 3` and at least three distinct resolved
industries among the held symbols (lines 217-220). -/
def diversifiedCond (user : Account) (industryOf : String → String) : Bool :=
  decide (user.stocks.length ≥ 3) &&
    decide ((((user.stocks.map (fun s => s.symbol)).dedup.map
      industryOf).dedup.length ≥ 3))

/-- The badge list `checkAndAwardAchievements`
(`src/unnamed/part_000` lines 203-224) writes back, with the external
data already fetched: `quotes` is the quote snapshot and `industryOf`
the industry resolved per symbol (`p.industry || 'Other'`).
`PATIENT_INVESTOR` is pushed when a holding is older than thirty days,
`MARKET_MASTER` when the valuation reaches 125000, and
`DIVERSIFIED_INVESTOR` when at least three holdings resolve to at
least three distinct industries. -/
def checkAndAwardAchievements (user : Account) (now : ℤ)
    (quotes : String → Option ℚ) (industryOf : String → String) :
    List String :=
  awardIf
    (awardIf
      (awardIf user.achievements "PATIENT_INVESTOR" (patientCond user now))
      "MARKET_MASTER" (marketMasterCond user quotes))
    "DIVERSIFIED_INVESTOR" (diversifiedCond user industryOf)

/-- The account state after the `$set: { achievements }` update of
`checkAndAwardAchievements`: only the achievement array changes. -/
def evaluateStep (user : Account) (now : ℤ) (quotes : String → Option ℚ)
    (industryOf : String → String) : Account :=
  { user with achievements := checkAndAwardAchievements user now quotes industryOf }

/-- `p.industry || 'Other'` from `getStockIndustries` (line 252): a
profile whose industry field is missing resolves to the generic
`Other` bucket. -/
def resolveIndustry (profileIndustry : String → Option String) :
    String → String :=
  fun s => (profileIndustry s).getD "Other"

/-- `checkAndAwardAchievements` as the request sees it, with the two
external batch calls still fallible: `fetchQuotes` models
`getQuotes(allSymbols)` (awaited only when the user holds stocks,
line 212) and `fetchIndustries` models `getStockIndustries(allSymbols)`
(awaited only when the diversification check runs, line 218).  Neither
call is wrapped in a try/catch, so a rejected fetch propagates out of
the handler. -/
def checkAndAwardAchievementsRequest (user : Account) (now : ℤ)
    (fetchQuotes : Except Unit (String → Option ℚ))
    (fetchIndustries : Except Unit (String → Option String)) :
    Except Unit (List String) :=
  let a1 := awardIf user.achievements "PATIENT_INVESTOR" (patientCond user now)
  match (if user.stocks.isEmpty then Except.ok user.cash
         else match fetchQuotes with
              | .ok q => .ok (user.cash + stockValue user.stocks q)
              | .error e => .error e) with
  | .error e => .error e
  | .ok totalValue =>
    let a2 := awardIf a1 "MARKET_MASTER" (decide (totalValue ≥ 125000))
    if "DIVERSIFIED_INVESTOR" ∉ a2 ∧ user.stocks.length ≥ 3 then
      match fetchIndustries with
      | .error e => .error e
      | .ok ind =>
        .ok (if (((user.stocks.map (fun s => s.symbol)).dedup.map
                (resolveIndustry ind)).dedup.length ≥ 3) then
            a2 ++ ["DIVERSIFIED_INVESTOR"]
          else a2)
    else .ok a2

/-- The projection of a `users` document that the leaderboard and
roster code reads: `_id` (as string), `username`, `role`, `teacherId`,
`cash`, `stocks`, `hashedPassword`. -/
structure UserRec where
  id : String
  username : String
  role : String
  teacherId : Option String
  cash : ℚ
  stocks : List Holding
  hashedPassword : String
deriving DecidableEq, Repr

/-- The authenticated `{ userId, role }` pair decoded from the JWT. -/
structure SessionUser where
  userId : String
  role : String
deriving DecidableEq, Repr

/-- One user's `totalValue` as computed in `getLeaderboards`
line 184. -/
def totalValueOf (u : UserRec) (quotes : String → Option ℚ) : ℚ :=
  u.cash + stockValue u.stocks quotes

/-- `allUsers.map(user => ({...user, totalValue})).sort((a, b) =>
b.totalValue - a.totalValue)` (lines 181-185): decorate every user
with its valuation and sort descending; `Array.prototype.sort` is
stable, as is `mergeSort`. -/
def rankUsers (allUsers : List UserRec) (quotes : String → Option ℚ) :
    List (UserRec × ℚ) :=
  (allUsers.map (fun u => (u, totalValueOf u quotes))).mergeSort
    (fun x y => decide (y.2 ≤ x.2))

/-- `getLeaderboards` (`src/unnamed/part_000` lines 176-201) with the
quote snapshot already fetched: returns the pair
`(global, class)`.  The class board of a teacher keeps the teacher and
the users whose `teacherId` equals the teacher's id; a student's class
board is their teacher's board; a student without a `teacherId` (or
one absent from the population) keeps only entries carrying their own
id. -/
def getLeaderboards (allUsers : List UserRec) (currentUser : SessionUser)
    (quotes : String → Option ℚ) :
    List (UserRec × ℚ) × List (UserRec × ℚ) :=
  let rankedUsers := rankUsers allUsers quotes
  let classLeaderboard :=
    if currentUser.role = "teacher" then
      rankedUsers.filter (fun ru =>
        ru.1.id == currentUser.userId ||
          (match ru.1.teacherId with
           | some t => t == currentUser.userId
           | none => false))
    else
      match allUsers.find? (fun u => u.id == currentUser.userId) with
      | some student =>
        match student.teacherId with
        | some tid =>
          rankedUsers.filter (fun ru =>
            (match ru.1.teacherId with
             | some t => t == tid
             | none => false) ||
              ru.1.id == tid)
        | none =>
          rankedUsers.filter (fun ru => ru.1.id == currentUser.userId)
      | none =>
        rankedUsers.filter (fun ru => ru.1.id == currentUser.userId)
  (rankedUsers, classLeaderboard)

/-- `getLeaderboards` as the request sees it: the quote snapshot comes
from `getQuotes(allSymbols)` (line 180, awaited only when some user
holds stocks, with no try/catch), so a rejected fetch propagates out
of the handler. -/
def getLeaderboardsRequest (allUsers : List UserRec)
    (currentUser : SessionUser)
    (fetchQuotes : Except Unit (String → Option ℚ)) :
    Except Unit (List (UserRec × ℚ) × List (UserRec × ℚ)) :=
  let allSymbols :=
    ((allUsers.map (fun u => u.stocks.map (fun s => s.symbol))).flatten).dedup
  if allSymbols.isEmpty then
    .ok (getLeaderboards allUsers currentUser (fun _ => none))
  else
    match fetchQuotes with
    | .error e => .error e
    | .ok quotes => .ok (getLeaderboards allUsers currentUser quotes)

/-- The errors of the roster operations: `'Student not found or not
under your roster.'`, `'Username is already taken.'`, `'No changes
were provided.'`. -/
inductive RosterError where
  | NotFound
  | UsernameTaken
  | NoChanges
deriving DecidableEq, Repr

/-- The Mongo filter `{ _id: ObjectId(studentId), $or: [{ teacherId },
{ teacherId: ObjectId(teacherId) }] }` used by the roster mutations:
the target document and the ownership check in one query. -/
def ownedBy (studentId teacherId : String) (u : UserRec) : Bool :=
  u.id == studentId && u.teacherId == some teacherId

/-- `removeStudent` (`src/unnamed/part_000` lines 106-110): `deleteOne`
on the owned-student filter; zero deletions throw. -/
def removeStudent (users : List UserRec) (studentId teacherId : String) :
    Except RosterError (List UserRec) :=
  if users.any (ownedBy studentId teacherId) then
    .ok (users.eraseP (ownedBy studentId teacherId))
  else .error .NotFound

/-- `updateStudentCash` (`src/unnamed/part_000` lines 111-115, same as
`src/netlify/functions/api.js` lines 196-203): `$inc: { cash: amount }`
through the owned-student filter; zero matches throw. -/
def updateStudentCash (users : List UserRec) (studentId : String)
    (amount : ℚ) (teacherId : String) : Except RosterError (List UserRec) :=
  if users.any (ownedBy studentId teacherId) then
    .ok (updateFirstMatch (ownedBy studentId teacherId)
          (fun u => { u with cash := u.cash + amount }) users)
  else .error .NotFound

/-- ASCII lowercasing of one character, the effect of the
case-insensitive `i` flag on the `^username$` regex the roster code
builds. -/
def lowerChar (c : Char) : Char :=
  if 'A' ≤ c ∧ c ≤ 'Z' then Char.ofNat (c.toNat + 32) else c

/-- Case-insensitive equality of two usernames, the semantics of the
`{ username: new RegExp(`, `^name$`, `, 'i') }` lookup. -/
def lowerEq (a b : String) : Bool :=
  a.data.map lowerChar == b.data.map lowerChar

/-- The case-insensitive availability check of
`updateStudentCredentials` lines 124-128: the requested username is
taken by a user other than the student being edited. -/
def usernameConflict (users : List UserRec) (studentId : String) :
    Option String → Bool
  | some nu =>
    match users.find? (fun u => lowerEq u.username nu) with
    | some existing => !(existing.id == studentId)
    | none => false
  | none => false

/-- `updateStudentCredentials` (`src/unnamed/part_000` lines 122-134):
a requested username that another user already holds
(case-insensitively) throws before anything else; an empty update
throws `NoChanges`; then `$set` through the owned-student filter, with
zero matches throwing.  `hash` stands for `bcrypt.hash`. -/
def updateStudentCredentials (users : List UserRec)
    (studentId teacherId : String) (newUsername newPassword : Option String)
    (hash : String → String) : Except RosterError (List UserRec) :=
  if usernameConflict users studentId newUsername then .error .UsernameTaken
  else if newUsername.isNone ∧ newPassword.isNone then .error .NoChanges
  else if users.any (ownedBy studentId teacherId) then
    .ok (updateFirstMatch (ownedBy studentId teacherId)
          (fun u =>
            { u with
              username := newUsername.getD u.username,
              hashedPassword := (newPassword.map hash).getD u.hashedPassword })
          users)
  else .error .NotFound

/-- The stored collection after a roster operation: updated on success,
untouched when the handler throws. -/
def resultingUsers (users : List UserRec) :
    Except RosterError (List UserRec) → List UserRec
  | .ok updated => updated
  | .error _ => users

/-- Solvency and share positivity: the two Ledger invariants of the
spec (§3, items 1 and 2). -/
def validState (a : Account) : Prop :=
  0 ≤ a.cash ∧ ∀ h ∈ a.stocks, 0 < h.shares

/-- A sample roster for concrete instances: one teacher, one student
owned by another teacher, and one student of teacher `t1` holding the
username `bob`. -/
def sampleRoster : List UserRec :=
  [{ id := "t1", username := "teach", role := "teacher", teacherId := none,
     cash := 0, stocks := [], hashedPassword := "x" },
   { id := "s1", username := "alice", role := "student",
     teacherId := some "t9", cash := 0, stocks := [], hashedPassword := "x" },
   { id := "s2", username := "bob", role := "student",
     teacherId := some "t1", cash := 0, stocks := [], hashedPassword := "x" }]

/-- The `alice` record of `sampleRoster`: a student whose teacher
reference is not `t1`. -/
def sampleTarget : UserRec :=
  { id := "s1", username := "alice", role := "student",
    teacherId := some "t9", cash := 0, stocks := [], hashedPassword := "x" }

example :
    executeTrade { cash := 100000, stocks := [], achievements := [] }
      { type := "buy", symbol := "AAPL", quantity := 10, price := 150 } 7
      = .ok { cash := 98500,
              stocks := [{ symbol := "AAPL", shares := 10,
                           purchasePrice := 150, purchaseDate := 7 }],
              achievements := ["FIRST_TRADE"] } := by
  norm_num +decide [executeTrade, buyTrade, sellTrade, updateFirstMatch, addIfMissing, List.find?]

example :
    executeTrade
      { cash := 98500,
        stocks := [{ symbol := "AAPL", shares := 10,
                     purchasePrice := 150, purchaseDate := 7 }],
        achievements := ["FIRST_TRADE"] }
      { type := "buy", symbol := "AAPL", quantity := 5, price := 180 } 9
      = .ok { cash := 97600,
              stocks := [{ symbol := "AAPL", shares := 15,
                           purchasePrice := 160, purchaseDate := 7 }],
              achievements := ["FIRST_TRADE"] } := by
  norm_num +decide [executeTrade, buyTrade, sellTrade, updateFirstMatch, addIfMissing, List.find?]

example :
    executeTrade
      { cash := 97600,
        stocks := [{ symbol := "AAPL", shares := 15,
                     purchasePrice := 160, purchaseDate := 7 }],
        achievements := ["FIRST_TRADE"] }
      { type := "sell", symbol := "AAPL", quantity := 15, price := 200 } 9
      = .ok { cash := 100600, stocks := [],
              achievements := ["FIRST_TRADE", "PROFIT_MAKER"] } := by
  norm_num +decide [executeTrade, buyTrade, sellTrade, updateFirstMatch, addIfMissing, List.find?]

example :
    executeTrade { cash := 100, stocks := [], achievements := [] }
      { type := "buy", symbol := "XYZ", quantity := 10, price := 50 } 0
      = .error .InsufficientFunds := by
  norm_num +decide [executeTrade, buyTrade, sellTrade, updateFirstMatch, addIfMissing, List.find?]

theorem mem_of_updateFirstMatch {p : α → Bool} {f : α → α} {l : List α} {x : α}
    (hx : x ∈ updateFirstMatch p f l) :
    x ∈ l ∨ ∃ y, l.find? p = some y ∧ x = f y := by
  induction l with
  | nil => simp [updateFirstMatch] at hx
  | cons z zs ih =>
    by_cases hz : p z
    · rw [updateFirstMatch, if_pos hz] at hx
      rcases List.mem_cons.mp hx with rfl | hx
      · exact Or.inr ⟨z, List.find?_cons_of_pos _ hz, rfl⟩
      · exact Or.inl (List.mem_cons_of_mem _ hx)
    · rw [updateFirstMatch, if_neg hz] at hx
      rcases List.mem_cons.mp hx with rfl | hx
      · exact Or.inl (List.mem_cons_self _ _)
      · rcases ih hx with h | ⟨y, hy, rfl⟩
        · exact Or.inl (List.mem_cons_of_mem _ h)
        · exact Or.inr ⟨y, by rw [List.find?_cons_of_neg _ hz]; exact hy, rfl⟩

theorem find?_updateFirstMatch {p : α → Bool} {f : α → α} {l : List α} {y : α}
    (hfind : l.find? p = some y) (hpf : p (f y) = true) :
    (updateFirstMatch p f l).find? p = some (f y) := by
  induction l with
  | nil => simp at hfind
  | cons z zs ih =>
    by_cases hz : p z
    · rw [List.find?_cons_of_pos _ hz] at hfind
      obtain rfl : z = y := Option.some.inj hfind
      rw [updateFirstMatch, if_pos hz]
      exact List.find?_cons_of_pos _ hpf
    · rw [List.find?_cons_of_neg _ hz] at hfind
      rw [updateFirstMatch, if_neg hz, List.find?_cons_of_neg _ hz]
      exact ih hfind

theorem find?_filter_not (p : α → Bool) (l : List α) :
    (l.filter (fun x => !(p x))).find? p = none := by
  rw [List.find?_eq_none]
  intro x hx
  have := (List.mem_filter.mp hx).2
  simpa using this

/-- C1: for every account and buy order with positive quantity and
price, `executeTrade` throws `InsufficientFunds` exactly when
`quantity * price > cash`; otherwise it succeeds, debits the cash by
`quantity * price`, folds the fill into an already-held symbol's
position by the weighted-average formula, and pushes a fresh holding
`{symbol, shares := quantity, purchasePrice := price}` when the symbol
was not held. -/
theorem buy_applyTrade_spec (a : Account) (o : Order) (now : ℤ)
    (hty : o.type = "buy") (hq : 0 < o.quantity) (hp : 0 < o.price) :
    (executeTrade a o now = .error .InsufficientFunds ↔
      o.quantity * o.price > a.cash) ∧
    (o.quantity * o.price ≤ a.cash →
      ∃ updated, executeTrade a o now = .ok updated ∧
        updated.cash = a.cash - o.quantity * o.price ∧
        (∀ h, a.stocks.find? (fun s => s.symbol == o.symbol) = some h →
          updated.stocks.find? (fun s => s.symbol == o.symbol) =
            some { symbol := h.symbol,
                   shares := h.shares + o.quantity,
                   purchasePrice :=
                     (h.shares * h.purchasePrice + o.quantity * o.price) /
                       (h.shares + o.quantity),
                   purchaseDate := h.purchaseDate }) ∧
        (a.stocks.find? (fun s => s.symbol == o.symbol) = none →
          updated.stocks = a.stocks ++
            [{ symbol := o.symbol, shares := o.quantity,
               purchasePrice := o.price, purchaseDate := now }])) := by
  have hex : executeTrade a o now = buyTrade a o now := by
    simp [executeTrade, hty]
  constructor
  · rw [hex]
    unfold buyTrade
    by_cases hc : o.quantity * o.price > a.cash
    · simp [hc]
    · simp [hc]
  · intro hle
    have hc : ¬ (o.quantity * o.price > a.cash) := not_lt.mpr hle
    rw [hex]
    unfold buyTrade
    rw [if_neg hc]
    refine ⟨_, rfl, rfl, ?_, ?_⟩
    · intro h hfind
      simp only [hfind]
      exact find?_updateFirstMatch hfind (by simpa using List.find?_some hfind)
    · intro hnone
      simp only [hnone]

/-- Witness of `buy_applyTrade_spec` at cash 100000, buy 10 AAPL at
price 150. -/
theorem buy_applyTrade_spec_witness :
    ({ type := "buy", symbol := "AAPL", quantity := 10,
       price := 150 } : Order).type = "buy" ∧
    (0 : ℚ) < 10 ∧ (0 : ℚ) < 150 ∧
    ((executeTrade { cash := 100000, stocks := [], achievements := [] }
        { type := "buy", symbol := "AAPL", quantity := 10, price := 150 } 7
        = .error .InsufficientFunds ↔
      (10 : ℚ) * 150 > 100000) ∧
    ((10 : ℚ) * 150 ≤ 100000 →
      ∃ updated,
        executeTrade { cash := 100000, stocks := [], achievements := [] }
          { type := "buy", symbol := "AAPL", quantity := 10, price := 150 } 7
          = .ok updated ∧
        updated.cash = 100000 - (10 : ℚ) * 150 ∧
        (∀ h, (List.find? (fun s : Holding => s.symbol == "AAPL") [] : Option Holding)
            = some h →
          updated.stocks.find? (fun s => s.symbol == "AAPL") =
            some { symbol := h.symbol,
                   shares := h.shares + 10,
                   purchasePrice :=
                     (h.shares * h.purchasePrice + 10 * 150) /
                       (h.shares + 10),
                   purchaseDate := h.purchaseDate }) ∧
        ((List.find? (fun s : Holding => s.symbol == "AAPL") [] : Option Holding)
            = none →
          updated.stocks = [] ++
            [{ symbol := "AAPL", shares := 10,
               purchasePrice := 150, purchaseDate := 7 }]))) :=
  ⟨rfl, by decide, by decide,
    buy_applyTrade_spec
      { cash := 100000, stocks := [], achievements := [] }
      { type := "buy", symbol := "AAPL", quantity := 10, price := 150 } 7
      rfl (by decide) (by decide)⟩

/-- C2: for every account and sell order with positive quantity and
price, `executeTrade` throws `InsufficientShares` exactly when no
holding of the symbol exists or the held shares are below the
quantity; otherwise it succeeds, credits the cash by
`quantity * price`, decrements the holding's shares by the quantity,
and removes the holding exactly when its shares reach zero. -/
theorem sell_applyTrade_spec (a : Account) (o : Order) (now : ℤ)
    (hty : o.type = "sell") (hq : 0 < o.quantity) (hp : 0 < o.price) :
    (executeTrade a o now = .error .InsufficientShares ↔
      a.stocks.find? (fun s => s.symbol == o.symbol) = none ∨
        ∃ h, a.stocks.find? (fun s => s.symbol == o.symbol) = some h ∧
          h.shares < o.quantity) ∧
    (∀ h, a.stocks.find? (fun s => s.symbol == o.symbol) = some h →
      o.quantity ≤ h.shares →
      ∃ updated, executeTrade a o now = .ok updated ∧
        updated.cash = a.cash + o.quantity * o.price ∧
        (h.shares - o.quantity = 0 →
          updated.stocks.find? (fun s => s.symbol == o.symbol) = none) ∧
        (h.shares - o.quantity ≠ 0 →
          updated.stocks.find? (fun s => s.symbol == o.symbol) =
            some { symbol := h.symbol, shares := h.shares - o.quantity,
                   purchasePrice := h.purchasePrice,
                   purchaseDate := h.purchaseDate })) := by
  have hex : executeTrade a o now = sellTrade a o := by
    simp [executeTrade, hty]
  cases hfind : a.stocks.find? (fun s => s.symbol == o.symbol) with
  | none =>
    constructor
    · rw [hex]
      simp [sellTrade, hfind]
    · intro h hfind2
      cases hfind2
  | some stock =>
    by_cases hlt : stock.shares < o.quantity
    · constructor
      · rw [hex]
        simp only [sellTrade, hfind, if_pos hlt, true_iff]
        exact Or.inr ⟨stock, rfl, hlt⟩
      · intro h hfind2 hle
        obtain rfl : stock = h := Option.some.inj hfind2
        exact absurd hlt (not_lt.mpr hle)
    · constructor
      · rw [hex]
        simp only [sellTrade, hfind, if_neg hlt, reduceCtorEq, false_iff]
        rintro (hnone | ⟨h, hsome, hshares⟩)
        · cases hnone
        · obtain rfl : stock = h := by injection hsome
          exact hlt hshares
      · intro h hfind2 hle
        obtain rfl : stock = h := Option.some.inj hfind2
        rw [hex]
        simp only [sellTrade, hfind, if_neg hlt]
        refine ⟨_, rfl, rfl, ?_, ?_⟩
        · intro hz
          simp only [hz, reduceIte]
          exact find?_filter_not (fun s : Holding => s.symbol == o.symbol) _
        · intro hz
          simp only [if_neg hz]
          exact find?_updateFirstMatch hfind
            (by simpa using List.find?_some hfind)

/-- Witness of `sell_applyTrade_spec`: selling 5 of a 15-share AAPL
position at price 200. -/
theorem sell_applyTrade_spec_witness :
    ({ type := "sell", symbol := "AAPL", quantity := 5,
       price := 200 } : Order).type = "sell" ∧
    (0 : ℚ) < 5 ∧ (0 : ℚ) < 200 ∧
    ((executeTrade
        { cash := 97600,
          stocks := [{ symbol := "AAPL", shares := 15,
                       purchasePrice := 160, purchaseDate := 7 }],
          achievements := ["FIRST_TRADE"] }
        { type := "sell", symbol := "AAPL", quantity := 5, price := 200 } 9
        = .error .InsufficientShares ↔
      List.find? (fun s : Holding => s.symbol == "AAPL")
          [{ symbol := "AAPL", shares := 15, purchasePrice := 160,
             purchaseDate := 7 }] = none ∨
        ∃ h, List.find? (fun s : Holding => s.symbol == "AAPL")
            [{ symbol := "AAPL", shares := 15, purchasePrice := 160,
               purchaseDate := 7 }] = some h ∧ h.shares < 5) ∧
    (∀ h, List.find? (fun s : Holding => s.symbol == "AAPL")
          [{ symbol := "AAPL", shares := 15, purchasePrice := 160,
             purchaseDate := 7 }] = some h →
      (5 : ℚ) ≤ h.shares →
      ∃ updated,
        executeTrade
          { cash := 97600,
            stocks := [{ symbol := "AAPL", shares := 15,
                         purchasePrice := 160, purchaseDate := 7 }],
            achievements := ["FIRST_TRADE"] }
          { type := "sell", symbol := "AAPL", quantity := 5, price := 200 } 9
          = .ok updated ∧
        updated.cash = 97600 + (5 : ℚ) * 200 ∧
        (h.shares - 5 = 0 →
          updated.stocks.find? (fun s => s.symbol == "AAPL") = none) ∧
        (h.shares - 5 ≠ 0 →
          updated.stocks.find? (fun s => s.symbol == "AAPL") =
            some { symbol := h.symbol, shares := h.shares - 5,
                   purchasePrice := h.purchasePrice,
                   purchaseDate := h.purchaseDate }))) :=
  ⟨rfl, by decide, by decide,
    sell_applyTrade_spec
      { cash := 97600,
        stocks := [{ symbol := "AAPL", shares := 15,
                     purchasePrice := 160, purchaseDate := 7 }],
        achievements := ["FIRST_TRADE"] }
      { type := "sell", symbol := "AAPL", quantity := 5, price := 200 } 9
      rfl (by decide) (by decide)⟩

/-- C5: a failing trade has no effect: any order type other than buy
and sell throws `InvalidOrderType`, and whenever `executeTrade` throws
(insufficient funds, insufficient shares, or an invalid type) the
stored account keeps exactly its cash, holdings and achievement set. -/
theorem failed_trade_no_effect (a : Account) (o : Order) (now : ℤ) :
    (o.type ≠ "buy" → o.type ≠ "sell" →
      executeTrade a o now = .error .InvalidOrderType) ∧
    (∀ e, executeTrade a o now = .error e →
      tradeStep a (o, now) = a ∧
      (tradeStep a (o, now)).cash = a.cash ∧
      (tradeStep a (o, now)).stocks = a.stocks ∧
      (tradeStep a (o, now)).achievements = a.achievements) := by
  constructor
  · intro hb hs
    simp [executeTrade, hb, hs]
  · intro e he
    have hstep : tradeStep a (o, now) = a := by
      unfold tradeStep
      simp only [he]
    exact ⟨hstep, by rw [hstep], by rw [hstep], by rw [hstep]⟩

/-- Witness of `failed_trade_no_effect`: an order of type `hold`
against a sample account. -/
theorem failed_trade_no_effect_witness :
    executeTrade
        { cash := 250, stocks := [], achievements := ["FIRST_TRADE"] }
        { type := "hold", symbol := "XYZ", quantity := 1, price := 1 } 0
      = .error .InvalidOrderType ∧
    tradeStep { cash := 250, stocks := [], achievements := ["FIRST_TRADE"] }
        ({ type := "hold", symbol := "XYZ", quantity := 1, price := 1 }, 0)
      = { cash := 250, stocks := [], achievements := ["FIRST_TRADE"] } := by
  have h := failed_trade_no_effect
    { cash := 250, stocks := [], achievements := ["FIRST_TRADE"] }
    { type := "hold", symbol := "XYZ", quantity := 1, price := 1 } 0
  have he := h.1 (by decide) (by decide)
  exact ⟨he, (h.2 _ he).1⟩

/-- C10: `executeTrade` does not validate that quantity and price are
positive: a buy of -10 shares at price 5 against cash 100 passes the
`quantity * price > cash` check (the cost is -50), succeeds, raises
the cash from 100 to 150 and stores a holding of -10 shares, so the
solvency and share-positivity invariants hold only under the
caller-supplied precondition `quantity > 0 ∧ price > 0`. -/
theorem no_positivity_validation :
    executeTrade { cash := 100, stocks := [], achievements := [] }
        { type := "buy", symbol := "XYZ", quantity := -10, price := 5 } 0
      = .ok { cash := 150,
              stocks := [{ symbol := "XYZ", shares := -10,
                           purchasePrice := 5, purchaseDate := 0 }],
              achievements := ["FIRST_TRADE"] } ∧
    (100 : ℚ) < 150 ∧ (-10 : ℚ) < 0 := by
  refine ⟨?_, by norm_num, by norm_num⟩
  norm_num +decide [executeTrade, buyTrade, updateFirstMatch, addIfMissing,
    List.find?]

theorem buyTrade_preserves (a : Account) (o : Order) (now : ℤ)
    (updated : Account) (hq : 0 < o.quantity) (hp : 0 < o.price)
    (hok : buyTrade a o now = .ok updated) (hv : validState a) :
    validState updated := by
  unfold buyTrade at hok
  by_cases hc : o.quantity * o.price > a.cash
  · rw [if_pos hc] at hok
    cases hok
  · rw [if_neg hc] at hok
    obtain rfl := Except.ok.inj hok
    refine ⟨?_, ?_⟩
    · have hle := not_lt.mp hc
      show (0 : ℚ) ≤ a.cash - o.quantity * o.price
      linarith
    · intro h hmem
      cases hfind : a.stocks.find? (fun s => s.symbol == o.symbol) with
      | some st =>
        rw [hfind] at hmem
        rcases mem_of_updateFirstMatch hmem with hm | ⟨y, hy, rfl⟩
        · exact hv.2 h hm
        · have hpos : 0 < y.shares :=
            hv.2 y (List.mem_of_find?_eq_some hy)
          show 0 < y.shares + o.quantity
          linarith
      | none =>
        rw [hfind] at hmem
        rcases List.mem_append.mp hmem with hm | hm
        · exact hv.2 h hm
        · rw [List.mem_singleton] at hm
          subst hm
          exact hq

theorem sellTrade_preserves (a : Account) (o : Order)
    (updated : Account) (hq : 0 < o.quantity) (hp : 0 < o.price)
    (hok : sellTrade a o = .ok updated) (hv : validState a) :
    validState updated := by
  unfold sellTrade at hok
  cases hfind : a.stocks.find? (fun s => s.symbol == o.symbol) with
  | none => simp only [hfind, reduceCtorEq] at hok
  | some stock =>
    by_cases hlt : stock.shares < o.quantity
    · simp only [hfind, if_pos hlt, reduceCtorEq] at hok
    · simp only [hfind, if_neg hlt] at hok
      obtain rfl := Except.ok.inj hok
      refine ⟨?_, ?_⟩
      · have h0 := hv.1
        have hqp : 0 < o.quantity * o.price := mul_pos hq hp
        show (0 : ℚ) ≤ a.cash + o.quantity * o.price
        linarith
      · by_cases hz : stock.shares - o.quantity = 0
        · intro h hmem
          simp only [hz, reduceIte] at hmem
          rcases List.mem_filter.mp hmem with ⟨hm1, hm2⟩
          rcases mem_of_updateFirstMatch hm1 with hm | ⟨y, hy, rfl⟩
          · exact hv.2 h hm
          · have hpy := List.find?_some hy
            simp at hm2 hpy
            exact absurd hpy hm2
        · intro h hmem
          simp only [if_neg hz] at hmem
          rcases mem_of_updateFirstMatch hmem with hm | ⟨y, hy, rfl⟩
          · exact hv.2 h hm
          · rw [hfind] at hy
            obtain rfl := Option.some.inj hy
            have hle := not_lt.mp hlt
            show 0 < stock.shares - o.quantity
            exact (sub_nonneg.mpr hle).lt_of_ne (Ne.symm hz)

theorem executeTrade_preserves (a : Account) (o : Order) (now : ℤ)
    (updated : Account) (hq : 0 < o.quantity) (hp : 0 < o.price)
    (hok : executeTrade a o now = .ok updated) (hv : validState a) :
    validState updated := by
  unfold executeTrade at hok
  by_cases hb : o.type = "buy"
  · rw [if_pos hb] at hok
    exact buyTrade_preserves a o now updated hq hp hok hv
  · rw [if_neg hb] at hok
    by_cases hs : o.type = "sell"
    · rw [if_pos hs] at hok
      exact sellTrade_preserves a o updated hq hp hok hv
    · rw [if_neg hs] at hok
      cases hok

theorem tradeStep_preserves (a : Account) (t : Order × ℤ)
    (hq : 0 < t.1.quantity) (hp : 0 < t.1.price) (hv : validState a) :
    validState (tradeStep a t) := by
  unfold tradeStep
  cases hok : executeTrade a t.1 t.2 with
  | ok updated => exact executeTrade_preserves a t.1 t.2 updated hq hp hok hv
  | error e => exact hv

theorem validState_foldl (a : Account) (l : List (Order × ℤ))
    (hl : ∀ t ∈ l, 0 < t.1.quantity ∧ 0 < t.1.price) (hv : validState a) :
    validState (l.foldl tradeStep a) := by
  induction l generalizing a with
  | nil => exact hv
  | cons t ts ih =>
    simp only [List.foldl_cons]
    exact ih (tradeStep a t)
      (fun x hx => hl x (List.mem_cons_of_mem _ hx))
      (tradeStep_preserves a t (hl t (List.mem_cons_self _ _)).1
        (hl t (List.mem_cons_self _ _)).2 hv)

/-- C3: starting from an account with nonnegative cash and positive
share counts, applying any sequence of trades with positive quantities
and prices through `executeTrade` (a failing trade changing nothing)
keeps the account solvent and the share counts positive after every
step, i.e. after every prefix of the sequence. -/
theorem trade_sequence_invariant (a : Account) (trades : List (Order × ℤ))
    (hts : ∀ t ∈ trades, 0 < t.1.quantity ∧ 0 < t.1.price)
    (hv : validState a) :
    ∀ pre suf, trades = pre ++ suf →
      validState (pre.foldl tradeStep a) := by
  intro pre suf htr
  subst htr
  exact validState_foldl a pre
    (fun t ht => hts t (List.mem_append_left _ ht)) hv

/-- Witness of `trade_sequence_invariant`: the spec scenario trades
(buy 10 AAPL at 150, buy 5 AAPL at 180, sell 15 AAPL at 200) from
cash 100000. -/
theorem trade_sequence_invariant_witness :
    (∀ t ∈ [(({ type := "buy", symbol := "AAPL", quantity := 10,
                 price := 150 } : Order), (7 : ℤ)),
             ({ type := "buy", symbol := "AAPL", quantity := 5,
                 price := 180 }, 9),
             ({ type := "sell", symbol := "AAPL", quantity := 15,
                 price := 200 }, 11)],
        0 < t.1.quantity ∧ 0 < t.1.price) ∧
    validState { cash := 100000, stocks := [], achievements := [] } ∧
    validState
      ([(({ type := "buy", symbol := "AAPL", quantity := 10,
             price := 150 } : Order), (7 : ℤ)),
         ({ type := "buy", symbol := "AAPL", quantity := 5,
             price := 180 }, 9),
         ({ type := "sell", symbol := "AAPL", quantity := 15,
             price := 200 }, 11)].foldl tradeStep
        { cash := 100000, stocks := [], achievements := [] }) :=
  ⟨by decide, ⟨by decide, by decide⟩,
    trade_sequence_invariant
      { cash := 100000, stocks := [], achievements := [] } _
      (by decide) ⟨by decide, by decide⟩ _ [] (List.append_nil _).symm⟩

theorem foldl_add_map (l : List α) (g : α → ℚ) (c : ℚ) :
    l.foldl (fun acc s => acc + g s) c = c + (l.map g).sum := by
  induction l generalizing c with
  | nil => simp
  | cons x xs ih =>
    simp only [List.foldl_cons, List.map_cons, List.sum_cons, ih (c + g x)]
    ring

/-- C4: for every account and every (partial) quote snapshot, the
valuation is exactly `cash` plus the sum over the holdings of
`shares` times the quoted price when present, the holding's cost
basis otherwise; the function is total, so no missing quote can make
it fail. -/
theorem valuate_spec (a : Account) (quotes : String → Option ℚ) :
    valuate a quotes =
      a.cash + (a.stocks.map (fun h =>
        h.shares * (match quotes h.symbol with
                    | some price => price
                    | none => h.purchasePrice))).sum := by
  unfold valuate stockValue
  rw [foldl_add_map, zero_add]
  congr 1
  congr 1
  apply List.map_congr_left
  intro h _
  cases quotes h.symbol <;> rfl

/-- Witness of `valuate_spec`, the spec scenario: cash 1000 and ten
AAPL held at cost 150 valuate to 2500 against an empty quote map. -/
theorem valuate_spec_witness :
    valuate { cash := 1000,
              stocks := [{ symbol := "AAPL", shares := 10,
                           purchasePrice := 150, purchaseDate := 0 }],
              achievements := [] } (fun _ => none)
      = 1000 +
        ([({ symbol := "AAPL", shares := 10, purchasePrice := 150,
             purchaseDate := 0 } : Holding)].map (fun h =>
          h.shares * (match (fun _ : String => (none : Option ℚ)) h.symbol with
                      | some price => price
                      | none => h.purchasePrice))).sum ∧
    (1000 : ℚ) + 10 * 150 = 2500 :=
  ⟨valuate_spec
    { cash := 1000,
      stocks := [{ symbol := "AAPL", shares := 10,
                   purchasePrice := 150, purchaseDate := 0 }],
      achievements := [] } (fun _ => none),
   by norm_num⟩

theorem mem_awardIf_of_mem {l : List String} {x : String} (b : String)
    (cond : Bool) (hx : x ∈ l) : x ∈ awardIf l b cond := by
  unfold awardIf
  split
  · exact List.mem_append_left _ hx
  · exact hx

theorem awardIf_mem_or (l : List String) (b : String) (cond : Bool) :
    b ∈ awardIf l b cond ∨ cond = false := by
  by_cases hb : b ∈ l
  · exact Or.inl (mem_awardIf_of_mem b cond hb)
  · cases hc : cond
    · exact Or.inr rfl
    · left
      unfold awardIf
      rw [if_pos ⟨hb, rfl⟩]
      exact List.mem_append_right _ (List.mem_singleton_self b)

theorem awardIf_eq_self (l : List String) (b : String) (cond : Bool)
    (h : b ∈ l ∨ cond = false) : awardIf l b cond = l := by
  unfold awardIf
  rw [if_neg]
  rintro ⟨hb, hc⟩
  rcases h with h | h
  · exact hb h
  · rw [h] at hc
    cases hc

/-- C6: achievement evaluation only ever extends the stored badge list
(every badge present before the call is present after it), and
running `checkAndAwardAchievements` again on the account state the
first run persisted, with the same quote snapshot and industry map,
returns the same badge list. -/
theorem achievements_monotone_idempotent (user : Account) (now : ℤ)
    (quotes : String → Option ℚ) (industryOf : String → String) :
    (∀ b ∈ user.achievements,
      b ∈ checkAndAwardAchievements user now quotes industryOf) ∧
    checkAndAwardAchievements (evaluateStep user now quotes industryOf)
        now quotes industryOf
      = checkAndAwardAchievements user now quotes industryOf := by
  constructor
  · intro b hb
    exact mem_awardIf_of_mem _ _ (mem_awardIf_of_mem _ _
      (mem_awardIf_of_mem _ _ hb))
  · show awardIf (awardIf (awardIf
        (checkAndAwardAchievements user now quotes industryOf)
        "PATIENT_INVESTOR" (patientCond user now))
        "MARKET_MASTER" (marketMasterCond user quotes))
        "DIVERSIFIED_INVESTOR" (diversifiedCond user industryOf)
      = checkAndAwardAchievements user now quotes industryOf
    have h1 : "PATIENT_INVESTOR" ∈
        checkAndAwardAchievements user now quotes industryOf ∨
        patientCond user now = false := by
      rcases awardIf_mem_or user.achievements "PATIENT_INVESTOR"
        (patientCond user now) with h | h
      · exact Or.inl (mem_awardIf_of_mem _ _ (mem_awardIf_of_mem _ _ h))
      · exact Or.inr h
    have h2 : "MARKET_MASTER" ∈
        checkAndAwardAchievements user now quotes industryOf ∨
        marketMasterCond user quotes = false := by
      rcases awardIf_mem_or
        (awardIf user.achievements "PATIENT_INVESTOR" (patientCond user now))
        "MARKET_MASTER" (marketMasterCond user quotes) with h | h
      · exact Or.inl (mem_awardIf_of_mem _ _ h)
      · exact Or.inr h
    have h3 : "DIVERSIFIED_INVESTOR" ∈
        checkAndAwardAchievements user now quotes industryOf ∨
        diversifiedCond user industryOf = false :=
      awardIf_mem_or _ "DIVERSIFIED_INVESTOR" (diversifiedCond user industryOf)
    rw [awardIf_eq_self _ _ _ h1, awardIf_eq_self _ _ _ h2,
      awardIf_eq_self _ _ _ h3]

/-- Witness of `achievements_monotone_idempotent` on a sample account
holding one old position. -/
theorem achievements_monotone_idempotent_witness :
    "FIRST_TRADE" ∈ checkAndAwardAchievements
        { cash := 1000,
          stocks := [{ symbol := "AAPL", shares := 10,
                       purchasePrice := 150, purchaseDate := 0 }],
          achievements := ["FIRST_TRADE"] }
        2600000 (fun _ => none) (fun _ => "Other") ∧
    checkAndAwardAchievements
        (evaluateStep
          { cash := 1000,
            stocks := [{ symbol := "AAPL", shares := 10,
                         purchasePrice := 150, purchaseDate := 0 }],
            achievements := ["FIRST_TRADE"] }
          2600000 (fun _ => none) (fun _ => "Other"))
        2600000 (fun _ => none) (fun _ => "Other")
      = checkAndAwardAchievements
          { cash := 1000,
            stocks := [{ symbol := "AAPL", shares := 10,
                         purchasePrice := 150, purchaseDate := 0 }],
            achievements := ["FIRST_TRADE"] }
          2600000 (fun _ => none) (fun _ => "Other") :=
  ⟨(achievements_monotone_idempotent
      { cash := 1000,
        stocks := [{ symbol := "AAPL", shares := 10,
                     purchasePrice := 150, purchaseDate := 0 }],
        achievements := ["FIRST_TRADE"] }
      2600000 (fun _ => none) (fun _ => "Other")).1 "FIRST_TRADE"
      (by decide),
   (achievements_monotone_idempotent
      { cash := 1000,
        stocks := [{ symbol := "AAPL", shares := 10,
                     purchasePrice := 150, purchaseDate := 0 }],
        achievements := ["FIRST_TRADE"] }
      2600000 (fun _ => none) (fun _ => "Other")).2⟩

theorem divStep_eq (a2 : List String) (user : Account)
    (indf : String → String) :
    (if "DIVERSIFIED_INVESTOR" ∉ a2 ∧ user.stocks.length ≥ 3 then
       (if (((user.stocks.map (fun s => s.symbol)).dedup.map
              indf).dedup.length ≥ 3) then
          a2 ++ ["DIVERSIFIED_INVESTOR"] else a2)
     else a2)
    = awardIf a2 "DIVERSIFIED_INVESTOR" (diversifiedCond user indf) := by
  by_cases hD : "DIVERSIFIED_INVESTOR" ∈ a2 <;>
    by_cases hL : user.stocks.length ≥ 3 <;>
      by_cases hI : (((user.stocks.map (fun s => s.symbol)).dedup.map
        indf).dedup.length ≥ 3) <;>
        simp [awardIf, diversifiedCond, hD, hL, hI]

/-- Counterexample to C7: a rejected batch quote fetch is not caught
inside `checkAndAwardAchievements` or `getLeaderboards` - it
propagates and the enclosing request fails.  Here an account holding
one stock triggers the quote fetch, and the rejected fetch surfaces
as the request's error. -/
theorem quote_fetch_failure_surfaces :
    checkAndAwardAchievementsRequest
        { cash := 0,
          stocks := [{ symbol := "AAPL", shares := 10,
                       purchasePrice := 150, purchaseDate := 0 }],
          achievements := [] }
        0 (.error ()) (.ok (fun _ => none))
      = .error () ∧
    getLeaderboardsRequest
        [{ id := "u1", username := "kid", role := "student",
           teacherId := none, cash := 0,
           stocks := [{ symbol := "AAPL", shares := 10,
                        purchasePrice := 150, purchaseDate := 0 }],
           hashedPassword := "pw" }]
        { userId := "u1", role := "student" } (.error ())
      = .error () := by
  constructor
  · rfl
  · rfl

/-- C7 (amended): when the batch quote and industry lookups respond,
the achievement request never fails and computes exactly the pure
evaluation in which a symbol absent from the quote snapshot is valued
at cost basis and a profile without an industry falls back to the
generic `Other` bucket; the leaderboard request likewise succeeds.
(A rejected batch lookup itself, by contrast, propagates to the
caller - see `quote_fetch_failure_surfaces`.) -/
theorem fetch_success_never_fails (user : Account) (now : ℤ)
    (q : String → Option ℚ) (ind : String → Option String)
    (allUsers : List UserRec) (currentUser : SessionUser) :
    checkAndAwardAchievementsRequest user now (.ok q) (.ok ind)
      = .ok (checkAndAwardAchievements user now q (resolveIndustry ind)) ∧
    (∃ board, getLeaderboardsRequest allUsers currentUser (.ok q)
      = .ok board) := by
  constructor
  · unfold checkAndAwardAchievementsRequest checkAndAwardAchievements
    by_cases hempty : user.stocks.isEmpty = true
    · have hnil : user.stocks = [] := List.isEmpty_iff.mp hempty
      rw [if_pos hempty]
      have hval : valuate user q = user.cash := by
        simp [valuate, stockValue, hnil]
      simp only [marketMasterCond, hval]
      rw [← apply_ite Except.ok, divStep_eq]
    · rw [if_neg hempty]
      simp only [marketMasterCond, valuate]
      rw [← apply_ite Except.ok, divStep_eq]
  · by_cases hsym :
      ((allUsers.map (fun u => u.stocks.map (fun s => s.symbol))).flatten).dedup.isEmpty = true
    · exact ⟨getLeaderboards allUsers currentUser (fun _ => none),
        by simp [getLeaderboardsRequest, hsym]⟩
    · exact ⟨getLeaderboards allUsers currentUser q,
        by simp [getLeaderboardsRequest, hsym]⟩

/-- Witness of `fetch_success_never_fails` at a concrete account and
partial snapshots. -/
theorem fetch_success_never_fails_witness :
    checkAndAwardAchievementsRequest
        { cash := 1000,
          stocks := [{ symbol := "AAPL", shares := 10,
                       purchasePrice := 150, purchaseDate := 0 }],
          achievements := [] }
        0 (.ok (fun _ => none)) (.ok (fun _ => none))
      = .ok (checkAndAwardAchievements
          { cash := 1000,
            stocks := [{ symbol := "AAPL", shares := 10,
                         purchasePrice := 150, purchaseDate := 0 }],
            achievements := [] }
          0 (fun _ => none) (resolveIndustry (fun _ => none))) ∧
    (∃ board, getLeaderboardsRequest [] { userId := "t", role := "teacher" }
        (.ok (fun _ => none)) = .ok board) :=
  fetch_success_never_fails
    { cash := 1000,
      stocks := [{ symbol := "AAPL", shares := 10,
                   purchasePrice := 150, purchaseDate := 0 }],
      achievements := [] }
    0 (fun _ => none) (fun _ => none) [] { userId := "t", role := "teacher" }

theorem rankUsers_pairwise (allUsers : List UserRec)
    (quotes : String → Option ℚ) :
    (rankUsers allUsers quotes).Pairwise (fun x y => y.2 ≤ x.2) := by
  have h := @List.sorted_mergeSort (UserRec × ℚ)
    (fun x y => decide (y.2 ≤ x.2))
    (fun a b c hab hbc => by
      simp only [decide_eq_true_eq] at *
      exact le_trans hbc hab)
    (fun a b => by
      simp only [Bool.or_eq_true, decide_eq_true_eq]
      exact le_total b.2 a.2)
    (allUsers.map (fun u => (u, totalValueOf u quotes)))
  exact h.imp (by intro a b hb; simpa using hb)

theorem mem_rankUsers_iff (allUsers : List UserRec)
    (quotes : String → Option ℚ) (u : UserRec) (tv : ℚ) :
    (u, tv) ∈ rankUsers allUsers quotes ↔
      u ∈ allUsers ∧ tv = totalValueOf u quotes := by
  unfold rankUsers
  rw [List.mem_mergeSort, List.mem_map]
  constructor
  · rintro ⟨x, hx, hxy⟩
    injection hxy with h1 h2
    subst h1
    subst h2
    exact ⟨hx, rfl⟩
  · rintro ⟨hu, rfl⟩
    exact ⟨u, hu, rfl⟩

theorem getLeaderboards_class_sublist (allUsers : List UserRec)
    (currentUser : SessionUser) (quotes : String → Option ℚ) :
    (getLeaderboards allUsers currentUser quotes).2.Sublist
      (rankUsers allUsers quotes) := by
  unfold getLeaderboards
  by_cases hrole : currentUser.role = "teacher"
  · simp only [if_pos hrole]
    exact List.filter_sublist _
  · simp only [if_neg hrole]
    cases hfind : allUsers.find? (fun u => u.id == currentUser.userId) with
    | none => exact List.filter_sublist _
    | some student =>
      cases hts : student.teacherId with
      | none =>
        simp only [hts]
        exact List.filter_sublist _
      | some tid =>
        simp only [hts]
        exact List.filter_sublist _

theorem teacherPred_iff (u : UserRec) (tid : String) :
    ((u.id == tid) ||
      (match u.teacherId with | some t => t == tid | none => false)) = true
    ↔ (u.id = tid ∨ u.teacherId = some tid) := by
  cases hti : u.teacherId <;> simp [hti]

theorem studentPred_iff (u : UserRec) (tid : String) :
    ((match u.teacherId with | some t => t == tid | none => false) ||
      (u.id == tid)) = true
    ↔ (u.teacherId = some tid ∨ u.id = tid) := by
  cases hti : u.teacherId <;> simp [hti]

/-- C8: the global leaderboard is the whole population decorated with
its valuations and sorted into descending `totalValue` order, the
class board is the appropriately scoped (and still sorted) subset -
the teacher plus that teacher's students for a teacher, the teacher's
board for a student with a teacher reference, only the student's own
entries for a student without one - and the function is
deterministic, so rerunning it on unchanged input reproduces the
ordering. -/
theorem leaderboard_spec (allUsers : List UserRec)
    (currentUser : SessionUser) (quotes : String → Option ℚ) :
    ((getLeaderboards allUsers currentUser quotes).1.Pairwise
      (fun x y => y.2 ≤ x.2)) ∧
    ((getLeaderboards allUsers currentUser quotes).2.Pairwise
      (fun x y => y.2 ≤ x.2)) ∧
    (∀ u ∈ allUsers, (u, totalValueOf u quotes) ∈
      (getLeaderboards allUsers currentUser quotes).1) ∧
    (∀ ru ∈ (getLeaderboards allUsers currentUser quotes).1,
      ru.1 ∈ allUsers ∧ ru.2 = totalValueOf ru.1 quotes) ∧
    (currentUser.role = "teacher" →
      ∀ u tv, ((u, tv) ∈ (getLeaderboards allUsers currentUser quotes).2 ↔
        u ∈ allUsers ∧ tv = totalValueOf u quotes ∧
          (u.id = currentUser.userId ∨
            u.teacherId = some currentUser.userId))) ∧
    (currentUser.role ≠ "teacher" →
      ∀ student,
        allUsers.find? (fun u => u.id == currentUser.userId) = some student →
        ∀ tid, student.teacherId = some tid →
        ∀ u tv, ((u, tv) ∈ (getLeaderboards allUsers currentUser quotes).2 ↔
          u ∈ allUsers ∧ tv = totalValueOf u quotes ∧
            (u.teacherId = some tid ∨ u.id = tid))) ∧
    (currentUser.role ≠ "teacher" →
      ∀ student,
        allUsers.find? (fun u => u.id == currentUser.userId) = some student →
        student.teacherId = none →
        ∀ u tv, ((u, tv) ∈ (getLeaderboards allUsers currentUser quotes).2 ↔
          u ∈ allUsers ∧ tv = totalValueOf u quotes ∧
            u.id = currentUser.userId)) ∧
    getLeaderboards allUsers currentUser quotes
      = getLeaderboards allUsers currentUser quotes := by
  refine ⟨rankUsers_pairwise allUsers quotes,
    List.Pairwise.sublist
      (getLeaderboards_class_sublist allUsers currentUser quotes)
      (rankUsers_pairwise allUsers quotes),
    ?_, ?_, ?_, ?_, ?_, rfl⟩
  · intro u hu
    exact (mem_rankUsers_iff allUsers quotes u _).mpr ⟨hu, rfl⟩
  · rintro ⟨u, tv⟩ hru
    exact (mem_rankUsers_iff allUsers quotes u tv).mp hru
  · intro hrole u tv
    have hclass : (getLeaderboards allUsers currentUser quotes).2 =
        (rankUsers allUsers quotes).filter (fun ru =>
          ru.1.id == currentUser.userId ||
            (match ru.1.teacherId with
             | some t => t == currentUser.userId
             | none => false)) := by
      simp [getLeaderboards, hrole]
    rw [hclass]
    simp only [List.mem_filter, mem_rankUsers_iff, teacherPred_iff]
    tauto
  · intro hrole student hfind tid hts u tv
    have hclass : (getLeaderboards allUsers currentUser quotes).2 =
        (rankUsers allUsers quotes).filter (fun ru =>
          (match ru.1.teacherId with
           | some t => t == tid
           | none => false) || ru.1.id == tid) := by
      simp [getLeaderboards, hrole, hfind, hts]
    rw [hclass]
    simp only [List.mem_filter, mem_rankUsers_iff, studentPred_iff]
    tauto
  · intro hrole student hfind hts u tv
    have hclass : (getLeaderboards allUsers currentUser quotes).2 =
        (rankUsers allUsers quotes).filter (fun ru =>
          ru.1.id == currentUser.userId) := by
      simp [getLeaderboards, hrole, hfind, hts]
    rw [hclass]
    simp only [List.mem_filter, mem_rankUsers_iff, beq_iff_eq]
    tauto

theorem ownedBy_of_any {users : List UserRec} {target : UserRec}
    {actorId : String} (hmem : target ∈ users)
    (huniq : ∀ u ∈ users, u.id = target.id → u = target)
    (hany : users.any (ownedBy target.id actorId) = true) :
    target.teacherId = some actorId := by
  rcases List.any_eq_true.mp hany with ⟨u, hu, hpu⟩
  simp only [ownedBy, Bool.and_eq_true, beq_iff_eq] at hpu
  obtain rfl := huniq u hu hpu.1
  exact hpu.2

/-- C9 (amended): a roster mutation can reach its target only through
the `{ _id: studentId, teacherId }` filter, so success implies the
target's teacher reference equals the actor's id; for a target with a
different teacher reference, removal and cash adjustment fail with
the not-found error and the collection is unchanged, while a
credentials change also always fails and leaves the collection
unchanged - though its error is `UsernameTaken` or `NoChanges`
instead of not-found when the requested username is already taken or
no change was supplied, since those checks run before the ownership
filter. -/
theorem roster_authorization (users : List UserRec) (target : UserRec)
    (actorId : String) (hmem : target ∈ users)
    (huniq : ∀ u ∈ users, u.id = target.id → u = target) :
    (∀ result, removeStudent users target.id actorId = .ok result →
      target.teacherId = some actorId) ∧
    (∀ amount result,
      updateStudentCash users target.id amount actorId = .ok result →
      target.teacherId = some actorId) ∧
    (∀ newU newP hash result,
      updateStudentCredentials users target.id actorId newU newP hash
        = .ok result →
      target.teacherId = some actorId) ∧
    (target.teacherId ≠ some actorId →
      removeStudent users target.id actorId = .error .NotFound ∧
      resultingUsers users (removeStudent users target.id actorId) = users ∧
      (∀ amount,
        updateStudentCash users target.id amount actorId
          = .error .NotFound ∧
        resultingUsers users
          (updateStudentCash users target.id amount actorId) = users) ∧
      (∀ newU newP hash,
        (∃ e, updateStudentCredentials users target.id actorId newU newP hash
          = .error e) ∧
        (usernameConflict users target.id newU = false →
          ¬(newU.isNone ∧ newP.isNone) →
          updateStudentCredentials users target.id actorId newU newP hash
            = .error .NotFound) ∧
        resultingUsers users
          (updateStudentCredentials users target.id actorId newU newP hash)
          = users)) := by
  refine ⟨?_, ?_, ?_, ?_⟩
  · intro result hok
    unfold removeStudent at hok
    split at hok
    · next hany => exact ownedBy_of_any hmem huniq hany
    · exact Except.noConfusion hok
  · intro amount result hok
    unfold updateStudentCash at hok
    split at hok
    · next hany => exact ownedBy_of_any hmem huniq hany
    · exact Except.noConfusion hok
  · intro newU newP hash result hok
    unfold updateStudentCredentials at hok
    split at hok
    · exact Except.noConfusion hok
    · split at hok
      · exact Except.noConfusion hok
      · split at hok
        · next hany => exact ownedBy_of_any hmem huniq hany
        · exact Except.noConfusion hok
  · intro hnot
    have hany : users.any (ownedBy target.id actorId) = false := by
      cases h : users.any (ownedBy target.id actorId) with
      | false => rfl
      | true => exact absurd (ownedBy_of_any hmem huniq h) hnot
    have hrem : removeStudent users target.id actorId = .error .NotFound := by
      unfold removeStudent
      rw [if_neg (by simp [hany])]
    refine ⟨hrem, by rw [hrem]; rfl, ?_, ?_⟩
    · intro amount
      have hcash : updateStudentCash users target.id amount actorId
          = .error .NotFound := by
        unfold updateStudentCash
        rw [if_neg (by simp [hany])]
      exact ⟨hcash, by rw [hcash]; rfl⟩
    · intro newU newP hash
      have hcred : ∃ e,
          updateStudentCredentials users target.id actorId newU newP hash
            = .error e := by
        unfold updateStudentCredentials
        by_cases hc : usernameConflict users target.id newU = true
        · exact ⟨.UsernameTaken, by rw [if_pos hc]⟩
        · by_cases hn : newU.isNone ∧ newP.isNone
          · exact ⟨.NoChanges, by rw [if_neg hc, if_pos hn]⟩
          · exact ⟨.NotFound,
              by rw [if_neg hc, if_neg hn, if_neg (by simp [hany])]⟩
      refine ⟨hcred, ?_, ?_⟩
      · intro hc hn
        unfold updateStudentCredentials
        rw [if_neg (by simp [hc]), if_neg hn, if_neg (by simp [hany])]
      · obtain ⟨e, he⟩ := hcred
        rw [he]
        rfl

/-- Counterexample to C9 as stated: the target `alice` is owned by
teacher `t9`, yet a credentials change by teacher `t1` that requests
the already-taken username `BOB` fails with `UsernameTaken`, not with
the unauthorized/not-found error (the username check runs before the
ownership filter). -/
theorem unauthorized_credentials_error_not_notfound :
    updateStudentCredentials sampleRoster "s1" "t1" (some "BOB") none
        (fun p => p)
      = .error .UsernameTaken ∧
    RosterError.UsernameTaken ≠ RosterError.NotFound := by
  constructor
  · rfl
  · decide

/-- Witness of `roster_authorization` on `sampleRoster`: teacher `t1`
cannot remove or mutate `alice`, owned by `t9`. -/
theorem roster_authorization_witness :
    sampleTarget ∈ sampleRoster ∧
    (∀ u ∈ sampleRoster, u.id = sampleTarget.id → u = sampleTarget) ∧
    removeStudent sampleRoster sampleTarget.id "t1" = .error .NotFound ∧
    resultingUsers sampleRoster
        (removeStudent sampleRoster sampleTarget.id "t1") = sampleRoster :=
  have h := roster_authorization sampleRoster sampleTarget "t1"
    (by decide) (by decide)
  have h4 := h.2.2.2 (by decide)
  ⟨by decide, by decide, h4.1, h4.2.1⟩

/-- Witness of `leaderboard_spec`: on `sampleRoster`, teacher `t1`'s
class board contains the student `bob` whose teacher reference is
`t1`. -/
theorem leaderboard_spec_witness :
    ({ id := "s2", username := "bob", role := "student",
       teacherId := some "t1", cash := 0, stocks := [],
       hashedPassword := "x" },
      totalValueOf
        { id := "s2", username := "bob", role := "student",
          teacherId := some "t1", cash := 0, stocks := [],
          hashedPassword := "x" } (fun _ => none)) ∈
      (getLeaderboards sampleRoster { userId := "t1", role := "teacher" }
        (fun _ => none)).2 :=
  ((leaderboard_spec sampleRoster { userId := "t1", role := "teacher" }
      (fun _ => none)).2.2.2.2.1 rfl _ _).mpr
    ⟨by decide, rfl, Or.inr rfl⟩

end StockApp
